import Mathlib

/-!
Shallow embedding of the validation engine of `mixed-pickles`
(`src/validation.rs`, with the configuration-layer types from `src/config.rs`
and the commit record from `src/commit.rs`), together with proofs about it.

Modelling conventions:
* Rust `String`/`&str` is Lean `String`; all character-level work is done on
  `String.data : List Char`.
* Rust `subject.len()` (UTF-8 byte length) is modelled by `utf8Len`, which sums
  `Char.utf8Size` over the characters.
* The `regex` patterns are embedded as executable scanners over `List Char`,
  alternative by alternative.  The regex classes `\d`, `\w`, `\s` and the
  case-insensitivity flag `(?i)` are modelled at ASCII granularity
  (`Char.isDigit`, ASCII alphanumerics and underscore, `Char.isWhitespace`,
  `Char.toLower`); the exotic Unicode case-folding pairs (Kelvin sign, long s)
  and non-ASCII word/space characters are outside the modelled fragment.
* The `HashMap<Validation, Severity>` of severities is modelled as a total
  function `Validation → Option Severity`; `insert` is pointwise update.
* Rust methods taking `&mut self` and returning `Result<(), ConfigError>`
  (`apply_file_config` and its helpers) are modelled by state passing: the
  result is the mutated configuration paired with `Option ConfigError`, so that
  mutations performed before an early `return Err(..)` stay visible, exactly as
  they do on the Rust `&mut self`.
-/

namespace MixedPickles

/-- UTF-8 byte length of a string: the model of Rust `str::len`. -/
def utf8Len (s : String) : Nat :=
  s.data.foldl (fun n c => n + c.utf8Size) 0

/-- Word character for the regex `\b` boundary (ASCII fragment of `\w`). -/
def isWordChar (c : Char) : Bool :=
  c.isAlphanum || c = '_'

/-- `true` when the next character (if any) is not a word character: the
regex word boundary `\b` placed after a word character, or end of input. -/
def nonWordNext : List Char → Bool
  | [] => true
  | c :: _ => !(isWordChar c)

/-- Case-insensitive literal prefix test (regex literal under `(?i)`). -/
def startsWithCI : List Char → List Char → Bool
  | [], _ => true
  | _ :: _, [] => false
  | p :: ps, c :: cs => (p.toLower = c.toLower) && startsWithCI ps cs

/-- Case-sensitive literal prefix test. -/
def startsWithCS : List Char → List Char → Bool
  | [], _ => true
  | _ :: _, [] => false
  | p :: ps, c :: cs => (p = c) && startsWithCS ps cs

/-- Case-insensitive literal: consume the literal and return the rest. -/
def dropCI : List Char → List Char → Option (List Char)
  | [], l => some l
  | _ :: _, [] => none
  | p :: ps, c :: cs => if p.toLower = c.toLower then dropCI ps cs else none

/-- `anySuffix p l` is true when `p` holds on some suffix of `l`: the model of
an unanchored regex `is_match`, which tries every start position. -/
def anySuffix (p : List Char → Bool) : List Char → Bool
  | [] => p []
  | c :: cs => p (c :: cs) || anySuffix p cs

/-- `scanB p l bnd` tries `p` at every position of `l` that sits at a `\b`
word boundary; `bnd` says whether the current position is one.  All patterns
scanned this way start with a word character, for which `\b` before the match
means exactly "previous character (if any) is not a word character". -/
def scanB (p : List Char → Bool) : List Char → Bool → Bool
  | [], _ => false
  | c :: cs, bnd => (bnd && p (c :: cs)) || scanB p cs (!(isWordChar c))

/-! ## Data model (`Validation`, `Severity`, `Finding`, `Commit`) -/

/-- `enum Validation` from `src/validation.rs`. -/
inductive Validation where
  | ShortCommit
  | MissingReference
  | InvalidFormat
  | VagueLanguage
  | WipCommit
  | NonImperative
deriving DecidableEq, Repr

/-- `enum Severity` from `src/validation.rs`. -/
inductive Severity where
  | Error
  | Warning
  | Info
  | Ignore
deriving DecidableEq, Repr

/-- `Severity::from_str` (case-insensitive names with `warn`/`off` aliases). -/
def Severity.from_str (s : String) : Except String Severity :=
  let l := String.mk (s.data.map Char.toLower)
  if l = "error" then .ok .Error
  else if l = "warning" || l = "warn" then .ok .Warning
  else if l = "info" then .ok .Info
  else if l = "ignore" || l = "off" then .ok .Ignore
  else .error ("Unknown severity: " ++ s)

/-- `struct Finding` from `src/validation.rs`. -/
structure Finding where
  validation : Validation
  severity : Severity
deriving DecidableEq, Repr

/-- `struct Commit` from `src/commit.rs` (the four string fields). -/
structure Commit where
  hash : String
  author_name : String
  author_email : String
  subject : String

/-! ## Pattern rules (the five `static _REGEX` patterns) -/

/-- One alternative of `REFERENCE_REGEX` at the current position:
`[A-Z]{2,}-\d+` under the global `(?i)` (so letters of either case); `n`
counts the letters consumed so far. -/
def refAlphaRun : List Char → Nat → Bool
  | [], _ => false
  | c :: cs, n =>
    if c.isAlpha then refAlphaRun cs (n + 1)
    else
      c = '-' && decide (2 ≤ n) &&
        (match cs with
         | d :: _ => d.isDigit
         | [] => false)

/-- The `#\d+` alternative of `REFERENCE_REGEX` at the current position. -/
def refHashAt : List Char → Bool
  | c0 :: c1 :: _ => c0 = '#' && c1.isDigit
  | _ => false

/-- The `gh-\d+` alternative (case-insensitive) at the current position. -/
def refGhAt : List Char → Bool
  | g :: h :: c2 :: c3 :: _ =>
    g.toLower = 'g' && h.toLower = 'h' && c2 = '-' && c3.isDigit
  | _ => false

/-- `REFERENCE_REGEX` = `(?i)(#\d+|gh-\d+|[A-Z]{2,}-\d+)` tried at one
position. -/
def refMatchAt (l : List Char) : Bool :=
  refHashAt l || refGhAt l || refAlphaRun l 0

/-- `has_reference` from `src/validation.rs`. -/
def has_reference (s : String) : Bool :=
  anySuffix refMatchAt s.data

/-- The eleven conventional-commit type tokens. -/
def convTypes : List String :=
  ["feat", "fix", "docs", "style", "refactor", "perf", "test", "build", "ci",
   "chore", "revert"]

/-- Tail of `CONVENTIONAL_COMMIT_REGEX` after the optional scope: `!?:\s.+`
(optional bang, colon, one whitespace, then at least one non-newline
character). -/
def convColonDescr : List Char → Bool
  | ':' :: w :: c :: _ => w.isWhitespace && !(c = '\n')
  | _ => false

/-- `!?:\s.+`: with or without the optional `!`. -/
def convTail (l : List Char) : Bool :=
  convColonDescr l ||
  (match l with
   | '!' :: r => convColonDescr r
   | _ => false)

/-- Scope alternative `\(.+\)` of `CONVENTIONAL_COMMIT_REGEX` after the
opening parenthesis: `.+` is one or more non-newline characters (it may
contain `)`), so every later `)` with a non-empty body is a candidate close;
`n` counts body characters consumed. -/
def convScopeScan : List Char → Nat → Bool
  | [], _ => false
  | c :: cs, n =>
    if c = '\n' then false
    else (c = ')' && decide (1 ≤ n) && convTail cs) || convScopeScan cs (n + 1)

/-- After the type token: `(\(.+\))?!?:\s.+`. -/
def convAfterType (l : List Char) : Bool :=
  convTail l ||
  (match l with
   | '(' :: r => convScopeScan r 0
   | _ => false)

/-- `has_conventional_format`: anchored, case-sensitive
`^(feat|fix|...)(\(.+\))?!?:\s.+`. -/
def has_conventional_format (s : String) : Bool :=
  convTypes.any fun t =>
    startsWithCS t.data s.data && convAfterType (s.data.drop t.data.length)

/-- The verb alternatives of `VAGUE_LANGUAGE_REGEX`:
`fix(ed|es|ing)?|update[ds]?|change[ds]?|modify|modified|modifies|tweak(ed|s)?|adjust(ed|s)?`. -/
def vagueVerbs : List String :=
  ["fix", "fixed", "fixes", "fixing",
   "update", "updated", "updates",
   "change", "changed", "changes",
   "modify", "modified", "modifies",
   "tweak", "tweaked", "tweaks",
   "adjust", "adjusted", "adjusts"]

/-- The object alternatives `(it|this|that|things?|stuff|code|bug|issue|error|problem)`. -/
def vagueNouns : List String :=
  ["it", "this", "that", "thing", "things", "stuff", "code", "bug", "issue",
   "error", "problem"]

/-- After the object noun: the optional trailing `s` and the closing `\b`. -/
def vagueTail (r : List Char) : Bool :=
  nonWordNext r ||
  (match r with
   | c :: cs => (c = 's' || c = 'S') && nonWordNext cs
   | [] => false)

/-- `VAGUE_LANGUAGE_REGEX` body at one `\b` position: verb, `\s+`, noun,
optional `s`, `\b`. -/
def vagueAt (l : List Char) : Bool :=
  vagueVerbs.any fun v =>
    startsWithCI v.data l &&
    (let r := l.drop v.data.length
     (match r with
      | c :: _ => c.isWhitespace
      | [] => false) &&
     (let r2 := r.dropWhile (·.isWhitespace)
      vagueNouns.any fun nn =>
        startsWithCI nn.data r2 && vagueTail (r2.drop nn.data.length)))

/-- Boolean form of `find_vague_language(..).is_some()`. -/
def has_vague_language (s : String) : Bool :=
  scanB vagueAt s.data true

/-- `\bwork.?in.?progress\b` at one position (`.?` is an optional single
non-newline character). -/
def wipWorkInProgressAt (l : List Char) : Bool :=
  startsWithCI "work".data l &&
  (let r := l.drop 4
   let kIn : List Char → Bool := fun r1 =>
     startsWithCI "in".data r1 &&
     (let r2 := r1.drop 2
      let kProg : List Char → Bool := fun r3 =>
        startsWithCI "progress".data r3 && nonWordNext (r3.drop 8)
      kProg r2 ||
        (match r2 with
         | c :: cs => !(c = '\n') && kProg cs
         | [] => false))
   kIn r ||
     (match r with
      | c :: cs => !(c = '\n') && kIn cs
      | [] => false))

/-- `\bdo\s*not\s*merge\b` at one position. -/
def wipDoNotMergeAt (l : List Char) : Bool :=
  startsWithCI "do".data l &&
  (let r := (l.drop 2).dropWhile (·.isWhitespace)
   startsWithCI "not".data r &&
   (let r2 := (r.drop 3).dropWhile (·.isWhitespace)
    startsWithCI "merge".data r2 && nonWordNext (r2.drop 5)))

/-- `\bdon'?t\s*merge\b` at one position. -/
def wipDontMergeAt (l : List Char) : Bool :=
  let tPart : List Char → Bool := fun r =>
    match r with
    | c :: r2 =>
      (c = 't' || c = 'T') &&
      (let r3 := r2.dropWhile (·.isWhitespace)
       startsWithCI "merge".data r3 && nonWordNext (r3.drop 5))
    | [] => false
  startsWithCI "don".data l &&
  (let r := l.drop 3
   (match r with
    | c :: r2 => (c = Char.ofNat 39 && tPart r2) || tPart r
    | [] => false))

/-- `\bwip\s*$` at one position. -/
def wipEndAt (l : List Char) : Bool :=
  startsWithCI "wip".data l && ((l.drop 3).dropWhile (·.isWhitespace)).isEmpty

/-- The unanchored alternatives of `WIP_COMMIT_REGEX`, all starting with a
word character and guarded by `\b`. -/
def wipScanAt (l : List Char) : Bool :=
  wipWorkInProgressAt l || wipDoNotMergeAt l || wipDontMergeAt l || wipEndAt l

/-- `is_wip_commit`: `WIP_COMMIT_REGEX` =
`(?i)(^wip\b|^wip:|^\[wip\]|\bwork.?in.?progress\b|^fixup!|^squash!|^amend!|\bdo\s*not\s*merge\b|\bdon'?t\s*merge\b|\bwip\s*$)`. -/
def is_wip_commit (s : String) : Bool :=
  let l := s.data
  (startsWithCI "wip".data l && nonWordNext (l.drop 3)) ||
  startsWithCI "wip:".data l ||
  startsWithCI "[wip]".data l ||
  startsWithCI "fixup!".data l ||
  startsWithCI "squash!".data l ||
  startsWithCI "amend!".data l ||
  scanB wipScanAt l true

/-- The sixty verb alternatives of `NON_IMPERATIVE_REGEX`. -/
def nonImpVerbs : List String :=
  ["added", "removed", "fixed", "updated", "changed", "implemented", "created",
   "deleted", "modified", "refactored", "improved", "resolved", "merged",
   "moved", "renamed", "replaced", "cleaned", "enabled", "disabled",
   "converted", "introduced", "integrated", "adjusted", "corrected",
   "enhanced", "extended", "optimized", "simplified", "upgraded", "migrated",
   "adding", "removing", "fixing", "updating", "changing", "implementing",
   "creating", "deleting", "modifying", "refactoring", "improving",
   "resolving", "merging", "moving", "renaming", "replacing", "cleaning",
   "enabling", "disabling", "converting", "introducing", "integrating",
   "adjusting", "correcting", "enhancing", "extending", "optimizing",
   "simplifying", "upgrading", "migrating"]

/-- A listed verb at the current position, closed by `\b`. -/
def nonImpVerbAt (l : List Char) : Bool :=
  nonImpVerbs.any fun v =>
    startsWithCI v.data l && nonWordNext (l.drop v.data.length)

/-- The optional scope `\([^)]+\)` of the `NON_IMPERATIVE_REGEX` header:
`[^)]+` cannot cross `)`, so the body runs to the first `)` and must be
non-empty. -/
def nonImpScopeSkip (l : List Char) : Option (List Char) :=
  match l with
  | '(' :: r =>
    (match r.dropWhile (fun c => !(c = ')')) with
     | ')' :: r2 =>
       if (r.takeWhile (fun c => !(c = ')'))).isEmpty then none else some r2
     | _ => none)
  | _ => none

/-- `!?:\s*` at the end of the header: consume the optional bang, the colon,
and trailing whitespace. -/
def nonImpColonSkip (l : List Char) : Option (List Char) :=
  match l with
  | '!' :: ':' :: r => some (r.dropWhile (·.isWhitespace))
  | ':' :: r => some (r.dropWhile (·.isWhitespace))
  | _ => none

/-- The optional header `(?:(?:feat|fix|...)(?:\([^)]+\))?!?:\s*)?` of
`NON_IMPERATIVE_REGEX` (case-insensitive): `some rest` when it parses. -/
def nonImpHeader (l : List Char) : Option (List Char) :=
  convTypes.foldr
    (fun t acc =>
      (match dropCI t.data l with
       | some r =>
         (match nonImpScopeSkip r with
          | some r2 => nonImpColonSkip r2
          | none => nonImpColonSkip r)
       | none => none).orElse (fun _ => acc))
    none

/-- Boolean form of `find_non_imperative(..).is_some()`: the header is
optional, so the engine also retries the verb at the very start when the
header parsed but no listed verb follows it. -/
def has_non_imperative (s : String) : Bool :=
  (match nonImpHeader s.data with
   | some r => nonImpVerbAt r
   | none => false) ||
  nonImpVerbAt s.data

/-! ## Configuration (`ValidationConfig` and the file layer) -/

/-- `struct ValidationConfig` from `src/validation.rs`; the severity
`HashMap` is a total lookup function. -/
structure ValidationConfig where
  severities : Validation → Option Severity
  threshold : Nat
  check_short : Bool
  require_issue_ref : Bool
  require_conventional_format : Bool
  check_vague_language : Bool
  check_wip : Bool
  check_imperative : Bool

/-- The severity map built by `ValidationConfig::default` (all six kinds are
inserted). -/
def defaultSeverities : Validation → Option Severity := fun v =>
  some (match v with
    | .WipCommit => .Error
    | .ShortCommit => .Warning
    | .VagueLanguage => .Warning
    | .NonImperative => .Warning
    | .MissingReference => .Info
    | .InvalidFormat => .Info)

/-- `ValidationConfig::default`. -/
def ValidationConfig.default : ValidationConfig :=
  { severities := defaultSeverities
    threshold := 30
    check_short := true
    require_issue_ref := true
    require_conventional_format := true
    check_vague_language := true
    check_wip := true
    check_imperative := true }

/-- `HashMap::insert` on the severity map. -/
def sevInsert (f : Validation → Option Severity) (v : Validation)
    (sev : Severity) : Validation → Option Severity :=
  fun w => if w = v then some sev else f w

/-- The `severity` builder method of `ValidationConfig`. -/
def ValidationConfig.severity (c : ValidationConfig) (v : Validation)
    (sev : Severity) : ValidationConfig :=
  { c with severities := sevInsert c.severities v sev }

/-- `ValidationConfig::get_severity` (`unwrap_or(Severity::Warning)`). -/
def get_severity (c : ValidationConfig) (v : Validation) : Severity :=
  (c.severities v).getD .Warning

/-- The per-kind enabled flag of a configuration (the six booleans, selected
by the kind they guard in `validate_commit`). -/
def enabled (c : ValidationConfig) : Validation → Bool
  | .ShortCommit => c.check_short
  | .MissingReference => c.require_issue_ref
  | .InvalidFormat => c.require_conventional_format
  | .VagueLanguage => c.check_vague_language
  | .WipCommit => c.check_wip
  | .NonImperative => c.check_imperative

/-- `enum ConfigError` from `src/config.rs` (the two core variants; the `Io`
and `Parse` variants belong to file I/O, which is outside the core). -/
inductive ConfigError where
  | InvalidValidation (name : String)
  | InvalidSeverity (severity : String)
deriving DecidableEq, Repr

/-- `struct SeverityConfig` from `src/config.rs`. -/
structure SeverityConfig where
  short : Option String := none
  wip : Option String := none
  reference : Option String := none
  format : Option String := none
  vague : Option String := none
  imperative : Option String := none

/-- `struct ToolConfig` from `src/config.rs`. -/
structure ToolConfig where
  threshold : Option Nat := none
  strict : Option Bool := none
  disable : List String := []
  severity : Option SeverityConfig := none

/-- The name normalization of `disable_validation`:
`name.to_lowercase().replace('-', "")` (ASCII lowercasing). -/
def normalizeName (s : String) : String :=
  String.mk ((s.data.map Char.toLower).filter (fun c => !(c = '-')))

/-- `ValidationConfig::disable_validation`: resolve the normalized name and
clear the matching flag, or fail with `InvalidValidation` carrying the
original string. -/
def disable_validation (c : ValidationConfig) (name : String) :
    Except ConfigError ValidationConfig :=
  let n := normalizeName name
  if n = "shortcommit" || n = "short" then
    .ok { c with check_short := false }
  else if n = "missingreference" || n = "reference" || n = "ref" then
    .ok { c with require_issue_ref := false }
  else if n = "invalidformat" || n = "format" then
    .ok { c with require_conventional_format := false }
  else if n = "vaguelanguage" || n = "vague" then
    .ok { c with check_vague_language := false }
  else if n = "wipcommit" || n = "wip" then
    .ok { c with check_wip := false }
  else if n = "nonimperative" || n = "imperative" then
    .ok { c with check_imperative := false }
  else
    .error (.InvalidValidation name)

/-- `ValidationConfig::set_severity_from_str`. -/
def set_severity_from_str (c : ValidationConfig) (v : Validation)
    (severity_str : String) : Except ConfigError ValidationConfig :=
  match Severity.from_str severity_str with
  | .ok sev => .ok { c with severities := sevInsert c.severities v sev }
  | .error _ => .error (.InvalidSeverity severity_str)

/-- The `for name in &config.disable` loop of `apply_file_config`: on the
first failure the flags already cleared stay cleared (the Rust loop mutates
`&mut self` and early-returns). -/
def apply_disables : ValidationConfig → List String →
    ValidationConfig × Option ConfigError
  | c, [] => (c, none)
  | c, n :: ns =>
    match disable_validation c n with
    | .ok c' => apply_disables c' ns
    | .error e => (c, some e)

/-- The ordered `mappings` array of `apply_severity_config`. -/
def sevMappings (sc : SeverityConfig) : List (Option String × Validation) :=
  [(sc.short, .ShortCommit), (sc.wip, .WipCommit),
   (sc.reference, .MissingReference), (sc.format, .InvalidFormat),
   (sc.vague, .VagueLanguage), (sc.imperative, .NonImperative)]

/-- The `for (severity_opt, validation) in mappings` loop of
`apply_severity_config`, with the same early-return-on-error behaviour as
`apply_disables`. -/
def sev_fold : ValidationConfig → List (Option String × Validation) →
    ValidationConfig × Option ConfigError
  | c, [] => (c, none)
  | c, (none, _) :: rest => sev_fold c rest
  | c, (some s, v) :: rest =>
    match set_severity_from_str c v s with
    | .ok c' => sev_fold c' rest
    | .error e => (c, some e)

/-- `ValidationConfig::apply_severity_config`. -/
def apply_severity_config (c : ValidationConfig) (sc : SeverityConfig) :
    ValidationConfig × Option ConfigError :=
  sev_fold c (sevMappings sc)

/-- `ValidationConfig::apply_file_config`: threshold, then disables, then
severities, stopping at the first error but keeping the mutations already
performed on `&mut self`. -/
def apply_file_config (c : ValidationConfig) (t : ToolConfig) :
    ValidationConfig × Option ConfigError :=
  let c1 := match t.threshold with
    | some th => { c with threshold := th }
    | none => c
  match apply_disables c1 t.disable with
  | (c2, some e) => (c2, some e)
  | (c2, none) =>
    match t.severity with
    | some sc => apply_severity_config c2 sc
    | none => (c2, none)

/-! ## The validator (`validate_commit`) -/

/-- `check_short` from `src/validation.rs`. -/
def check_short (subject : String) (config : ValidationConfig) :
    Option Finding :=
  if !config.check_short then none
  else if utf8Len subject ≤ config.threshold then
    let severity := get_severity config .ShortCommit
    if severity ≠ .Ignore then some ⟨.ShortCommit, severity⟩ else none
  else none

/-- `check_issue_reference` from `src/validation.rs`. -/
def check_issue_reference (subject : String) (config : ValidationConfig) :
    Option Finding :=
  if !(has_reference subject) then
    let severity := get_severity config .MissingReference
    if severity ≠ .Ignore then some ⟨.MissingReference, severity⟩ else none
  else none

/-- `check_conventional_format` from `src/validation.rs`. -/
def check_conventional_format (subject : String) (config : ValidationConfig) :
    Option Finding :=
  if !(has_conventional_format subject) then
    let severity := get_severity config .InvalidFormat
    if severity ≠ .Ignore then some ⟨.InvalidFormat, severity⟩ else none
  else none

/-- `check_vague` from `src/validation.rs`. -/
def check_vague (subject : String) (config : ValidationConfig) :
    Option Finding :=
  if has_vague_language subject then
    let severity := get_severity config .VagueLanguage
    if severity ≠ .Ignore then some ⟨.VagueLanguage, severity⟩ else none
  else none

/-- `check_wip` from `src/validation.rs`. -/
def check_wip (subject : String) (config : ValidationConfig) :
    Option Finding :=
  if is_wip_commit subject then
    let severity := get_severity config .WipCommit
    if severity ≠ .Ignore then some ⟨.WipCommit, severity⟩ else none
  else none

/-- `check_imperative` from `src/validation.rs`. -/
def check_imperative (subject : String) (config : ValidationConfig) :
    Option Finding :=
  if has_non_imperative subject then
    let severity := get_severity config .NonImperative
    if severity ≠ .Ignore then some ⟨.NonImperative, severity⟩ else none
  else none

/-- `validate_commit` from `src/validation.rs`, with the push order of the
Rust function kept as list concatenation. -/
def validate_commit (commit : Commit) (config : ValidationConfig) :
    List Finding :=
  let subject := commit.subject
  let is_wip := config.check_wip && is_wip_commit subject
  let is_short := !is_wip && decide (utf8Len subject ≤ config.threshold)
  (if is_wip then (check_wip subject config).toList else []) ++
  (if is_wip then []
   else
     (check_short subject config).toList ++
     (if config.check_vague_language then (check_vague subject config).toList
      else [])) ++
  (if config.require_issue_ref then
     (check_issue_reference subject config).toList
   else []) ++
  (if config.require_conventional_format then
     (check_conventional_format subject config).toList
   else []) ++
  (if config.check_imperative && !is_short then
     (check_imperative subject config).toList
   else [])

/-- A commit with a given subject (hash and author do not influence
validation). -/
def mkCommit (subject : String) : Commit :=
  ⟨"abc123", "Test", "test@example.com", subject⟩

/-- The disable-name table of `disable_validation` as a per-kind predicate on
the normalized name: the canonical lowercase name or its documented alias. -/
def resolves (s : String) : Validation → Bool
  | .ShortCommit => s = "shortcommit" || s = "short"
  | .MissingReference => s = "missingreference" || s = "reference" || s = "ref"
  | .InvalidFormat => s = "invalidformat" || s = "format"
  | .VagueLanguage => s = "vaguelanguage" || s = "vague"
  | .WipCommit => s = "wipcommit" || s = "wip"
  | .NonImperative => s = "nonimperative" || s = "imperative"

/-- A reference token as the amended specification describes it: `#` followed
by digits, `gh-` (either case) followed by digits, or at least two letters of
either case followed by `-` and digits (the source regex applies its `(?i)`
flag to all three alternatives). -/
def RefTok (t : List Char) : Prop :=
  (∃ d, t = '#' :: d ∧ d ≠ [] ∧ ∀ c ∈ d, c.isDigit = true) ∨
  (∃ g h d, t = g :: h :: '-' :: d ∧ g.toLower = 'g' ∧ h.toLower = 'h' ∧
    d ≠ [] ∧ ∀ c ∈ d, c.isDigit = true) ∨
  (∃ a d, t = a ++ '-' :: d ∧ 2 ≤ a.length ∧ (∀ c ∈ a, c.isAlpha = true) ∧
    d ≠ [] ∧ ∀ c ∈ d, c.isDigit = true)

/-- The subject contains a reference token somewhere (the specification-side
reading of `has_reference`). -/
def RefSpec (s : String) : Prop :=
  ∃ p t q, s.data = p ++ t ++ q ∧ RefTok t

/-- The field of a `SeverityConfig` that `apply_severity_config` reads for a
given kind. -/
def scFieldOf (sc : SeverityConfig) : Validation → Option String
  | .ShortCommit => sc.short
  | .WipCommit => sc.wip
  | .MissingReference => sc.reference
  | .InvalidFormat => sc.format
  | .VagueLanguage => sc.vague
  | .NonImperative => sc.imperative

/-- The severity-layer field belonging to a kind, as `apply_severity_config`
reads it from the `SeverityConfig` of a layer. -/
def sevFieldOf (t : ToolConfig) (v : Validation) : Option String :=
  match t.severity with
  | none => none
  | some sc => scFieldOf sc v

end MixedPickles

namespace MixedPickles

/-! ## Helper lemmas -/

lemma check_short_kind {s : String} {c : ValidationConfig} {f : Finding}
    (h : check_short s c = some f) : f.validation = .ShortCommit := by
  unfold check_short at h
  repeat' split at h
  all_goals simp_all
  exact congrArg Finding.validation h.2.symm

lemma check_issue_reference_kind {s : String} {c : ValidationConfig}
    {f : Finding} (h : check_issue_reference s c = some f) :
    f.validation = .MissingReference := by
  unfold check_issue_reference at h
  repeat' split at h
  all_goals simp_all
  exact congrArg Finding.validation h.2.symm

lemma check_conventional_format_kind {s : String} {c : ValidationConfig}
    {f : Finding} (h : check_conventional_format s c = some f) :
    f.validation = .InvalidFormat := by
  unfold check_conventional_format at h
  repeat' split at h
  all_goals simp_all
  exact congrArg Finding.validation h.2.symm

lemma check_vague_kind {s : String} {c : ValidationConfig} {f : Finding}
    (h : check_vague s c = some f) : f.validation = .VagueLanguage := by
  unfold check_vague at h
  repeat' split at h
  all_goals simp_all
  exact congrArg Finding.validation h.2.symm

lemma check_wip_kind {s : String} {c : ValidationConfig} {f : Finding}
    (h : check_wip s c = some f) : f.validation = .WipCommit := by
  unfold check_wip at h
  repeat' split at h
  all_goals simp_all
  exact congrArg Finding.validation h.2.symm

lemma check_imperative_kind {s : String} {c : ValidationConfig} {f : Finding}
    (h : check_imperative s c = some f) : f.validation = .NonImperative := by
  unfold check_imperative at h
  repeat' split at h
  all_goals simp_all
  exact congrArg Finding.validation h.2.symm

end MixedPickles

namespace MixedPickles

/-! Scratch checks mirroring the unit tests in `src/validation.rs`. -/

example : has_reference "fix: resolve bug #123" = true := by decide
example : has_reference "feat: add feature (gh-456)" = true := by decide
example : has_reference "PROJ-1 initial commit" = true := by decide
example : has_reference "fix: resolve bug" = false := by decide
example : has_reference "fix: resolve bug #" = false := by decide
example : has_reference "fix: resolve bug A-123" = false := by decide
example : has_reference "ab-12" = true := by decide

example : has_conventional_format "feat: add new feature" = true := by decide
example : has_conventional_format "feat(api): add new endpoint" = true := by decide
example : has_conventional_format "fix(api)!: breaking fix" = true := by decide
example : has_conventional_format "feat(api-v2): add endpoint" = true := by decide
example : has_conventional_format "add new feature" = false := by decide
example : has_conventional_format "feat add new feature" = false := by decide
example : has_conventional_format "feat:add new feature" = false := by decide
example : has_conventional_format "feature: add new feature" = false := by decide
example : has_conventional_format "feat: " = false := by decide
example : has_conventional_format "fix:" = false := by decide

example : has_vague_language "fix bug" = true := by decide
example : has_vague_language "fixed issues" = true := by decide
example : has_vague_language "changes it" = true := by decide
example : has_vague_language "adjusted it" = true := by decide
example : has_vague_language "FIX BUG" = true := by decide
example : has_vague_language "fix: resolve null pointer in user login" = false := by decide
example : has_vague_language "update README with installation steps" = false := by decide

example : is_wip_commit "WIP add new feature" = true := by decide
example : is_wip_commit "wip: add new feature" = true := by decide
example : is_wip_commit "[WIP] add new feature" = true := by decide
example : is_wip_commit "add new feature WIP" = true := by decide
example : is_wip_commit "work-in-progress" = true := by decide
example : is_wip_commit "feat: add feature (work in progress)" = true := by decide
example : is_wip_commit "fixup! fix typo" = true := by decide
example : is_wip_commit "squash! feat: add new feature" = true := by decide
example : is_wip_commit "amend! fix typo" = true := by decide
example : is_wip_commit "feat: add feature - DO NOT MERGE" = true := by decide
example : is_wip_commit "don't merge" = true := by decide
example : is_wip_commit "dont merge" = true := by decide
example : is_wip_commit "feat: add new feature #123" = false := by decide
example : is_wip_commit "feat: add wiping functionality" = false := by decide
example : is_wip_commit "fix: handle equipped items" = false := by decide

example : has_non_imperative "Added new feature" = true := by decide
example : has_non_imperative "feat: Added new endpoint" = true := by decide
example : has_non_imperative "fix(api): Handle edge case" = false := by decide
example : has_non_imperative "refactor!: Simplify logic" = false := by decide
example : has_non_imperative "feat: Implementing auth" = true := by decide
example : has_non_imperative "Add new feature" = false := by decide
example : has_non_imperative "ADDED feature" = true := by decide
example : has_non_imperative "feat: Add updated timestamp #123" = false := by decide
example : has_non_imperative "fix: Handle added complexity" = false := by decide

example :
    validate_commit (mkCommit "feat: add user authentication #123")
      ValidationConfig.default = [] := by decide

example :
    validate_commit (mkCommit "WIP: quick thing") ValidationConfig.default =
      [⟨.WipCommit, .Error⟩, ⟨.MissingReference, .Info⟩,
       ⟨.InvalidFormat, .Info⟩] := by decide

example :
    validate_commit (mkCommit "feat: Added OAuth2 support for admin login #412")
      ValidationConfig.default = [⟨.NonImperative, .Warning⟩] := by decide

example :
    validate_commit (mkCommit "fix bug") ValidationConfig.default =
      [⟨.ShortCommit, .Warning⟩, ⟨.VagueLanguage, .Warning⟩,
       ⟨.MissingReference, .Info⟩, ⟨.InvalidFormat, .Info⟩] := by decide

example :
    validate_commit (mkCommit "fixup! address review comments")
      ValidationConfig.default =
      [⟨.WipCommit, .Error⟩, ⟨.MissingReference, .Info⟩,
       ⟨.InvalidFormat, .Info⟩] := by decide

example : utf8Len "ääääääääääääääää" = 32 := by decide
example : ("ääääääääääääääää" : String).length = 16 := by decide
example :
    validate_commit (mkCommit "ääääääääääääääää") ValidationConfig.default =
      [⟨.MissingReference, .Info⟩, ⟨.InvalidFormat, .Info⟩] := by decide
example :
    validate_commit (mkCommit "äääääääääääääää") ValidationConfig.default =
      [⟨.ShortCommit, .Warning⟩, ⟨.MissingReference, .Info⟩,
       ⟨.InvalidFormat, .Info⟩] := by decide

example :
    (apply_file_config ValidationConfig.default
      { threshold := some 50, disable := ["short", "nonexistent"] }).2 =
      some (.InvalidValidation "nonexistent") := by decide
example :
    (apply_file_config ValidationConfig.default
      { threshold := some 50, disable := ["short", "nonexistent"] }).1.threshold
      = 50 := by decide
example :
    (apply_file_config ValidationConfig.default
      { threshold := some 50, disable := ["short", "nonexistent"] }).1.check_short
      = false := by decide

example : normalizeName "WIP-Commit" = "wipcommit" := by decide
example : normalizeName "s-h-o-r-t" = "short" := by decide
example :
    (disable_validation ValidationConfig.default "s-h-o-r-t").toOption.map
      (fun c => c.check_short) = some false := by decide

end MixedPickles

namespace MixedPickles

/-! ## Further helper lemmas -/

lemma mem_toList_eq {o : Option Finding} {f : Finding} (h : f ∈ o.toList) :
    o = some f := by
  cases o with
  | none => simp at h
  | some g => simp at h; subst h; rfl

lemma mem_ite_toList {b : Bool} {o : Option Finding} {f : Finding}
    (h : f ∈ (if b then o.toList else [])) : o = some f := by
  cases b with
  | true => exact mem_toList_eq (by simpa using h)
  | false => simp at h

end MixedPickles

namespace MixedPickles

/-! ## Claim theorems -/

/-- C1: for every commit whose subject matches a WIP pattern, under the
default configuration, the findings of `validate_commit` contain `WipCommit`
and contain neither `ShortCommit` nor `VagueLanguage`. -/
theorem wip_suppresses_short_and_vague (commit : Commit)
    (h : is_wip_commit commit.subject = true) :
    (∃ f ∈ validate_commit commit ValidationConfig.default,
        f.validation = Validation.WipCommit) ∧
    (∀ f ∈ validate_commit commit ValidationConfig.default,
        f.validation ≠ Validation.ShortCommit) ∧
    (∀ f ∈ validate_commit commit ValidationConfig.default,
        f.validation ≠ Validation.VagueLanguage) := by
  have hw : check_wip commit.subject ValidationConfig.default =
      some ⟨.WipCommit, .Error⟩ := by
    simp [check_wip, h, get_severity, ValidationConfig.default,
      defaultSeverities]
  have hval : validate_commit commit ValidationConfig.default =
      ⟨.WipCommit, .Error⟩ ::
        ((check_issue_reference commit.subject ValidationConfig.default).toList ++
          (check_conventional_format commit.subject ValidationConfig.default).toList ++
          (check_imperative commit.subject ValidationConfig.default).toList) := by
    have e1 : ValidationConfig.default.check_wip = true := rfl
    have e2 : ValidationConfig.default.require_issue_ref = true := rfl
    have e3 : ValidationConfig.default.require_conventional_format = true := rfl
    have e4 : ValidationConfig.default.check_imperative = true := rfl
    simp [validate_commit, h, hw, e1, e2, e3, e4]
  refine ⟨⟨⟨.WipCommit, .Error⟩, ?_, rfl⟩, ?_, ?_⟩
  · rw [hval]; exact List.mem_cons_self _ _
  · intro f hf
    rw [hval] at hf
    rcases List.mem_cons.mp hf with rfl | hf'
    · decide
    · rcases List.mem_append.mp hf' with hf2 | h3
      · rcases List.mem_append.mp hf2 with h1 | h2
        · rw [check_issue_reference_kind (mem_toList_eq h1)]; decide
        · rw [check_conventional_format_kind (mem_toList_eq h2)]; decide
      · rw [check_imperative_kind (mem_toList_eq h3)]; decide
  · intro f hf
    rw [hval] at hf
    rcases List.mem_cons.mp hf with rfl | hf'
    · decide
    · rcases List.mem_append.mp hf' with hf2 | h3
      · rcases List.mem_append.mp hf2 with h1 | h2
        · rw [check_issue_reference_kind (mem_toList_eq h1)]; decide
        · rw [check_conventional_format_kind (mem_toList_eq h2)]; decide
      · rw [check_imperative_kind (mem_toList_eq h3)]; decide

/-- Witness for C1 at the concrete subject `"WIP: quick thing"`. -/
theorem wip_suppresses_short_and_vague_witness :
    is_wip_commit "WIP: quick thing" = true ∧
    (∀ f ∈ validate_commit (mkCommit "WIP: quick thing")
        ValidationConfig.default, f.validation ≠ Validation.ShortCommit) :=
  ⟨by decide,
   (wip_suppresses_short_and_vague (mkCommit "WIP: quick thing")
      (by decide)).2.1⟩

end MixedPickles

namespace MixedPickles

/-- C2: for every commit whose subject does not match a WIP pattern and whose
byte length is at most the threshold, `NonImperative` never appears in the
findings — for every configuration, so in particular also when `ShortCommit`
is disabled or has severity `Ignore`: the `is_short` suppression flag is
computed from the length predicate alone. -/
theorem short_suppresses_non_imperative (commit : Commit)
    (cfg : ValidationConfig) (hwip : is_wip_commit commit.subject = false)
    (hlen : utf8Len commit.subject ≤ cfg.threshold) :
    ∀ f ∈ validate_commit commit cfg,
      f.validation ≠ Validation.NonImperative := by
  intro f hf
  have hd : decide (utf8Len commit.subject ≤ cfg.threshold) = true :=
    decide_eq_true hlen
  unfold validate_commit at hf
  simp [hwip, hd] at hf
  rcases hf with h1 | ⟨-, h2⟩ | ⟨-, h3⟩ | ⟨-, h4⟩
  · rw [check_short_kind h1]; decide
  · rw [check_vague_kind h2]; decide
  · rw [check_issue_reference_kind h3]; decide
  · rw [check_conventional_format_kind h4]; decide

/-- Witness for C2: a short, non-WIP subject under a configuration with
`ShortCommit` disabled still gets no `NonImperative` finding. -/
theorem short_suppresses_non_imperative_witness :
    is_wip_commit "Added x" = false ∧
    utf8Len "Added x" ≤ 30 ∧
    (∀ f ∈ validate_commit (mkCommit "Added x")
        { ValidationConfig.default with check_short := false },
      f.validation ≠ Validation.NonImperative) :=
  ⟨by decide, by decide,
   short_suppresses_non_imperative (mkCommit "Added x")
     { ValidationConfig.default with check_short := false }
     (by decide) (by decide)⟩

end MixedPickles

namespace MixedPickles

/-- Counterexample for C4: the global `(?i)` flag of `REFERENCE_REGEX` also
covers the `[A-Z]{2,}-\d+` alternative, so the lowercase `"ab-12"` *is* a
reference for the code and `MissingReference` does not fire on it. -/
theorem lowercase_reference_counterexample :
    has_reference "ab-12" = true ∧
    check_issue_reference "ab-12" ValidationConfig.default = none := by
  constructor
  · decide
  · decide

/-- Counterexample for C5: on `"WIP: quick thing"` under the default
configuration the findings are not only `WipCommit` and `InvalidFormat` —
`MissingReference` is also present (the subject has no issue token and
`MissingReference` is evaluated independently of WIP). -/
theorem wip_quick_thing_counterexample :
    (⟨Validation.MissingReference, Severity.Info⟩ : Finding) ∈
      validate_commit (mkCommit "WIP: quick thing")
        ValidationConfig.default := by decide

/-- C5 as amended: `"WIP: quick thing"` under the default configuration
yields exactly `WipCommit`, `MissingReference` and `InvalidFormat`, in
evaluation order; `ShortCommit` and `VagueLanguage` are suppressed by WIP and
`NonImperative` does not match. -/
theorem wip_quick_thing_findings :
    validate_commit (mkCommit "WIP: quick thing") ValidationConfig.default =
      [⟨.WipCommit, .Error⟩, ⟨.MissingReference, .Info⟩,
       ⟨.InvalidFormat, .Info⟩] := by decide

/-- C6: the default severity mapping is `WipCommit→Error`,
`ShortCommit/VagueLanguage/NonImperative→Warning`,
`MissingReference/InvalidFormat→Info`; `get_severity` is total (it falls back
to `Warning` when the map has no entry, so it cannot panic), and after an
override is inserted for a kind it returns the overridden value for that
kind. -/
theorem get_severity_defaults_and_override :
    get_severity ValidationConfig.default .WipCommit = .Error ∧
    get_severity ValidationConfig.default .ShortCommit = .Warning ∧
    get_severity ValidationConfig.default .VagueLanguage = .Warning ∧
    get_severity ValidationConfig.default .NonImperative = .Warning ∧
    get_severity ValidationConfig.default .MissingReference = .Info ∧
    get_severity ValidationConfig.default .InvalidFormat = .Info ∧
    (∀ (c : ValidationConfig) (v : Validation) (sev : Severity),
        get_severity (c.severity v sev) v = sev) ∧
    (∀ (f : Validation → Option Severity) (v : Validation),
        get_severity ⟨f, 30, true, true, true, true, true, true⟩ v =
          (f v).getD .Warning) := by
  refine ⟨rfl, rfl, rfl, rfl, rfl, rfl, ?_, ?_⟩
  · intro c v sev
    simp [get_severity, ValidationConfig.severity, sevInsert]
  · intro f v
    rfl

/-- C8: `"feat: Added OAuth2 support for admin login #412"` under the default
configuration yields exactly one finding, `NonImperative` (the subject is
longer than the threshold, not WIP, has a reference, matches the
conventional-format grammar, and its first post-prefix word is past tense). -/
theorem feat_added_oauth_findings :
    validate_commit (mkCommit "feat: Added OAuth2 support for admin login #412")
      ValidationConfig.default = [⟨.NonImperative, .Warning⟩] := by decide

end MixedPickles

namespace MixedPickles

/-! ## The reference-regex characterization (C4) -/

lemma anySuffix_iff (p : List Char → Bool) (l : List Char) :
    anySuffix p l = true ↔ ∃ u v, l = u ++ v ∧ p v = true := by
  induction l with
  | nil =>
    constructor
    · intro h; exact ⟨[], [], rfl, h⟩
    · rintro ⟨u, v, huv, hp⟩
      obtain ⟨rfl, rfl⟩ := List.append_eq_nil.mp huv.symm
      exact hp
  | cons c cs ih =>
    simp only [anySuffix, Bool.or_eq_true, ih]
    constructor
    · rintro (h1 | ⟨u, v, rfl, hp⟩)
      · exact ⟨[], c :: cs, rfl, h1⟩
      · exact ⟨c :: u, v, rfl, hp⟩
    · rintro ⟨u, v, huv, hp⟩
      rcases u with _ | ⟨x, u'⟩
      · simp only [List.nil_append] at huv
        subst huv
        exact Or.inl hp
      · simp only [List.cons_append, List.cons.injEq] at huv
        obtain ⟨rfl, huv2⟩ := huv
        exact Or.inr ⟨u', v, huv2, hp⟩

lemma refAlphaRun_sound :
    ∀ (l : List Char) (n : Nat), refAlphaRun l n = true →
    ∃ a c rest, l = a ++ '-' :: c :: rest ∧ (∀ x ∈ a, x.isAlpha = true) ∧
      2 ≤ n + a.length ∧ c.isDigit = true := by
  intro l
  induction l with
  | nil => intro n h; simp [refAlphaRun] at h
  | cons x xs ih =>
    intro n h
    by_cases hx : x.isAlpha = true
    · simp only [refAlphaRun] at h
      rw [if_pos hx] at h
      obtain ⟨a, c, rest, heq, halpha, hle, hc⟩ := ih (n + 1) h
      refine ⟨x :: a, c, rest, by rw [heq]; rfl, ?_, by simp; omega, hc⟩
      intro y hy
      rcases List.mem_cons.mp hy with rfl | hy'
      · exact hx
      · exact halpha y hy'
    · simp only [refAlphaRun] at h
      rw [if_neg hx] at h
      simp only [Bool.and_eq_true, decide_eq_true_eq] at h
      obtain ⟨⟨hx1, hn⟩, hm⟩ := h
      rcases xs with _ | ⟨d, ds⟩
      · simp at hm
      · refine ⟨[], d, ds, by rw [hx1]; rfl, by simp, by simpa using hn, hm⟩

lemma refAlphaRun_complete :
    ∀ (a : List Char) (n : Nat) (c : Char) (rest : List Char),
    (∀ x ∈ a, x.isAlpha = true) → 2 ≤ n + a.length → c.isDigit = true →
    refAlphaRun (a ++ '-' :: c :: rest) n = true := by
  intro a
  induction a with
  | nil =>
    intro n c rest _ hle hc
    have hn : 2 ≤ n := by simpa using hle
    simp [refAlphaRun, hn, hc]
  | cons x a' ih =>
    intro n c rest halpha hle hc
    have hx : x.isAlpha = true := halpha x (List.mem_cons_self x a')
    rw [List.cons_append]
    simp only [refAlphaRun]
    rw [if_pos hx]
    exact ih (n + 1) c rest (fun y hy => halpha y (List.mem_cons_of_mem _ hy))
      (by simp at hle ⊢; omega) hc

lemma refMatchAt_iff (v : List Char) :
    refMatchAt v = true ↔ ∃ t q, v = t ++ q ∧ RefTok t := by
  constructor
  · intro h
    rcases (by simpa [refMatchAt] using h :
        (refHashAt v = true ∨ refGhAt v = true) ∨ refAlphaRun v 0 = true) with
      (h1 | h2) | h3
    · rcases v with _ | ⟨c0, _ | ⟨c1, v2⟩⟩
      · simp [refHashAt] at h1
      · simp [refHashAt] at h1
      · simp only [refHashAt, Bool.and_eq_true, decide_eq_true_eq] at h1
        obtain ⟨hc0, hc1⟩ := h1
        exact ⟨['#', c1], v2, by rw [hc0]; rfl,
          Or.inl ⟨[c1], rfl, by simp, by simpa using hc1⟩⟩
    · rcases v with _ | ⟨g, _ | ⟨hh, _ | ⟨c2, _ | ⟨c3, v4⟩⟩⟩⟩
      · simp [refGhAt] at h2
      · simp [refGhAt] at h2
      · simp [refGhAt] at h2
      · simp [refGhAt] at h2
      · simp only [refGhAt, Bool.and_eq_true, decide_eq_true_eq] at h2
        obtain ⟨⟨⟨hg, hh'⟩, hc2⟩, hc3⟩ := h2
        exact ⟨[g, hh, '-', c3], v4, by rw [hc2]; rfl,
          Or.inr (Or.inl ⟨g, hh, [c3], rfl, hg, hh', by simp,
            by simpa using hc3⟩)⟩
    · obtain ⟨a, c, rest, heq, halpha, hle, hc⟩ := refAlphaRun_sound v 0 h3
      refine ⟨a ++ ['-', c], rest, by rw [heq]; simp,
        Or.inr (Or.inr ⟨a, [c], by simp, by simpa using hle, halpha, by simp,
          by simpa using hc⟩)⟩
  · rintro ⟨t, q, rfl, htok⟩
    rcases htok with ⟨d, rfl, hne, hdig⟩ | ⟨g, hh, d, rfl, hg, hh', hne, hdig⟩ |
      ⟨a, d, rfl, hle, halpha, hne, hdig⟩
    · rcases d with _ | ⟨c1, d'⟩
      · exact absurd rfl hne
      · have hc1 : c1.isDigit = true := hdig c1 (List.mem_cons_self _ _)
        simp [refMatchAt, refHashAt, hc1]
    · rcases d with _ | ⟨c3, d'⟩
      · exact absurd rfl hne
      · have hc3 : c3.isDigit = true := hdig c3 (List.mem_cons_self _ _)
        simp [refMatchAt, refGhAt, hg, hh', hc3]
    · rcases d with _ | ⟨c, d'⟩
      · exact absurd rfl hne
      · have hc : c.isDigit = true := hdig c (List.mem_cons_self _ _)
        have hrun := refAlphaRun_complete a 0 c (d' ++ q) halpha
          (by simpa using hle) hc
        simp only [refMatchAt, Bool.or_eq_true]
        refine Or.inr ?_
        simpa [List.append_assoc] using hrun

lemma has_reference_iff_refspec (s : String) :
    has_reference s = true ↔ RefSpec s := by
  unfold has_reference RefSpec
  rw [anySuffix_iff]
  constructor
  · rintro ⟨u, v, huv, hp⟩
    obtain ⟨t, q, rfl, htok⟩ := (refMatchAt_iff v).mp hp
    exact ⟨u, t, q, by rw [huv, List.append_assoc], htok⟩
  · rintro ⟨p, t, q, heq, htok⟩
    exact ⟨p, t ++ q, by rw [heq, List.append_assoc],
      (refMatchAt_iff _).mpr ⟨t, q, rfl, htok⟩⟩

/-- C4 as amended: `has_reference` is true exactly when the subject contains
`#<digits>`, `gh-<digits>` (either case), or two or more letters of *either*
case followed by `-<digits>` (the `(?i)` flag covers all alternatives); and
under the default configuration the `MissingReference` check fires exactly
when no such token is present. -/
theorem has_reference_characterization :
    (∀ s : String, has_reference s = true ↔ RefSpec s) ∧
    (∀ s : String,
        (check_issue_reference s ValidationConfig.default).isSome =
          !(has_reference s)) := by
  refine ⟨has_reference_iff_refspec, ?_⟩
  intro s
  unfold check_issue_reference
  cases hr : has_reference s <;>
    simp [hr, get_severity, ValidationConfig.default, defaultSeverities]

end MixedPickles

namespace MixedPickles

/-! ## Configuration-merge lemmas -/

lemma disable_validation_ok_fields {c c' : ValidationConfig} {n : String}
    (h : disable_validation c n = .ok c') :
    c'.threshold = c.threshold ∧ c'.severities = c.severities := by
  simp only [disable_validation] at h
  repeat' split at h
  all_goals
    first
      | (simp only [Except.ok.injEq] at h; subst h; exact ⟨rfl, rfl⟩)
      | simp at h

lemma disable_validation_ok_enabled {c c' : ValidationConfig} {n : String}
    (h : disable_validation c n = .ok c') (v : Validation) :
    enabled c' v = (enabled c v && !(resolves (normalizeName n) v)) := by
  simp only [disable_validation] at h
  generalize hm : normalizeName n = m at h ⊢
  repeat' split at h
  all_goals
    first
      | (rename_i hc
         simp only [Bool.or_eq_true, decide_eq_true_eq] at hc
         simp only [Except.ok.injEq] at h
         subst h
         first
           | (rcases hc with (rfl | rfl) | rfl <;> cases v <;>
               simp [enabled, resolves])
           | (rcases hc with rfl | rfl <;> cases v <;>
               simp [enabled, resolves]))
      | simp at h

lemma disable_validation_err {c : ValidationConfig} {n : String}
    {e : ConfigError} (h : disable_validation c n = .error e) :
    e = .InvalidValidation n := by
  simp only [disable_validation] at h
  repeat' split at h
  all_goals simp_all

lemma disable_validation_resolved {c : ValidationConfig} {n : String}
    {v : Validation} (h : resolves (normalizeName n) v = true) :
    ∃ c', disable_validation c n = .ok c' ∧ enabled c' v = false := by
  cases v <;>
    (simp only [resolves, Bool.or_eq_true, decide_eq_true_eq] at h
     simp only [disable_validation]
     first
       | (rcases h with (h | h) | h <;> rw [h] <;> exact ⟨_, rfl, rfl⟩)
       | (rcases h with h | h <;> rw [h] <;> exact ⟨_, rfl, rfl⟩))

lemma set_severity_from_str_ok {c c' : ValidationConfig} {v : Validation}
    {s : String} (h : set_severity_from_str c v s = .ok c') :
    ∃ sev, Severity.from_str s = .ok sev ∧
      c' = { c with severities := sevInsert c.severities v sev } := by
  unfold set_severity_from_str at h
  split at h
  · rename_i sev heq
    simp only [Except.ok.injEq] at h
    exact ⟨sev, heq, h.symm⟩
  · simp at h

lemma set_severity_from_str_err {c : ValidationConfig} {v : Validation}
    {s : String} {e : ConfigError}
    (h : set_severity_from_str c v s = .error e) : e = .InvalidSeverity s := by
  unfold set_severity_from_str at h
  split at h
  · simp at h
  · simp only [Except.error.injEq] at h
    exact h.symm

lemma apply_disables_fields :
    ∀ (ns : List String) (c : ValidationConfig),
    (apply_disables c ns).1.threshold = c.threshold ∧
    (apply_disables c ns).1.severities = c.severities := by
  intro ns
  induction ns with
  | nil => intro c; exact ⟨rfl, rfl⟩
  | cons n ns ih =>
    intro c
    simp only [apply_disables]
    cases hd : disable_validation c n with
    | ok c' =>
      obtain ⟨h1, h2⟩ := disable_validation_ok_fields hd
      obtain ⟨h3, h4⟩ := ih c'
      exact ⟨h3.trans h1, h4.trans h2⟩
    | error e => exact ⟨rfl, rfl⟩

lemma apply_disables_enabled_ok :
    ∀ (ns : List String) (c c' : ValidationConfig),
    apply_disables c ns = (c', none) →
    ∀ v, enabled c' v =
      (enabled c v && !(ns.any (fun n => resolves (normalizeName n) v))) := by
  intro ns
  induction ns with
  | nil =>
    intro c c' h v
    simp only [apply_disables, Prod.mk.injEq] at h
    rw [← h.1]
    simp
  | cons n ns ih =>
    intro c c' h v
    simp only [apply_disables] at h
    cases hd : disable_validation c n with
    | ok cm =>
      rw [hd] at h
      rw [ih cm c' h v, disable_validation_ok_enabled hd v]
      simp [Bool.and_assoc]
    | error e =>
      rw [hd] at h
      simp at h

lemma apply_disables_keeps_disabled :
    ∀ (ns : List String) (c : ValidationConfig) (v : Validation),
    enabled c v = false → enabled (apply_disables c ns).1 v = false := by
  intro ns
  induction ns with
  | nil => intro c v h; exact h
  | cons n ns ih =>
    intro c v h
    simp only [apply_disables]
    cases hd : disable_validation c n with
    | ok cm =>
      exact ih cm v (by rw [disable_validation_ok_enabled hd v, h]; simp)
    | error e => exact h

lemma sev_fold_fields :
    ∀ (ms : List (Option String × Validation)) (c : ValidationConfig),
    (sev_fold c ms).1.threshold = c.threshold ∧
    (∀ v, enabled (sev_fold c ms).1 v = enabled c v) := by
  intro ms
  induction ms with
  | nil => intro c; exact ⟨rfl, fun _ => rfl⟩
  | cons m ms ih =>
    intro c
    rcases m with ⟨o, v0⟩
    cases o with
    | none => simpa [sev_fold] using ih c
    | some s =>
      simp only [sev_fold]
      cases hs : set_severity_from_str c v0 s with
      | ok cm =>
        obtain ⟨sev, _, rfl⟩ := set_severity_from_str_ok hs
        obtain ⟨h1, h2⟩ := ih { c with severities := sevInsert c.severities v0 sev }
        exact ⟨h1.trans rfl, fun v => (h2 v).trans (by cases v <;> rfl)⟩
      | error e => exact ⟨rfl, fun _ => rfl⟩

lemma get_severity_insert_self (c : ValidationConfig) (v : Validation)
    (sev : Severity) :
    get_severity { c with severities := sevInsert c.severities v sev } v =
      sev := by
  simp [get_severity, sevInsert]

lemma get_severity_insert_ne {w v : Validation} (hne : w ≠ v)
    (c : ValidationConfig) (sev : Severity) :
    get_severity { c with severities := sevInsert c.severities v sev } w =
      get_severity c w := by
  simp [get_severity, sevInsert, hne]

lemma sev_fold_get_preserve :
    ∀ (ms : List (Option String × Validation)) (c c' : ValidationConfig)
      (v : Validation),
    sev_fold c ms = (c', none) →
    (∀ p ∈ ms, p.2 = v → p.1 = none) →
    get_severity c' v = get_severity c v := by
  intro ms
  induction ms with
  | nil =>
    intro c c' v h _
    simp only [sev_fold, Prod.mk.injEq] at h
    rw [← h.1]
  | cons m ms ih =>
    intro c c' v h hnone
    rcases m with ⟨o, v0⟩
    cases o with
    | none =>
      exact ih c c' v (by simpa [sev_fold] using h)
        (fun p hp hpv => hnone p (List.mem_cons_of_mem _ hp) hpv)
    | some s =>
      by_cases hv : v0 = v
      · exact absurd (hnone (some s, v0) (List.mem_cons_self _ _) hv) (by simp)
      · simp only [sev_fold] at h
        cases hs : set_severity_from_str c v0 s with
        | ok cm =>
          rw [hs] at h
          obtain ⟨sev, _, rfl⟩ := set_severity_from_str_ok hs
          rw [ih _ c' v h (fun p hp hpv => hnone p (List.mem_cons_of_mem _ hp) hpv)]
          exact get_severity_insert_ne (fun he => hv he.symm) c sev
        | error e =>
          rw [hs] at h
          simp at h

lemma sev_fold_get_set :
    ∀ (ms1 : List (Option String × Validation)) (s : String)
      (ms2 : List (Option String × Validation)) (c c' : ValidationConfig)
      (v : Validation),
    sev_fold c (ms1 ++ (some s, v) :: ms2) = (c', none) →
    (∀ p ∈ ms2, p.2 ≠ v) →
    ∃ sev, Severity.from_str s = .ok sev ∧ get_severity c' v = sev := by
  intro ms1
  induction ms1 with
  | nil =>
    intro s ms2 c c' v h h2
    simp only [List.nil_append, sev_fold] at h
    cases hs : set_severity_from_str c v s with
    | ok cm =>
      rw [hs] at h
      obtain ⟨sev, hparse, rfl⟩ := set_severity_from_str_ok hs
      refine ⟨sev, hparse, ?_⟩
      rw [sev_fold_get_preserve ms2 _ c' v h
        (fun p hp hpv => absurd hpv (h2 p hp))]
      exact get_severity_insert_self c v sev
    | error e =>
      rw [hs] at h
      simp at h
  | cons m ms1 ih =>
    intro s ms2 c c' v h h2
    rcases m with ⟨o, v0⟩
    cases o with
    | none => exact ih s ms2 c c' v (by simpa [sev_fold] using h) h2
    | some s0 =>
      simp only [List.cons_append, sev_fold] at h
      cases hs : set_severity_from_str c v0 s0 with
      | ok cm =>
        rw [hs] at h
        exact ih s ms2 cm c' v h h2
      | error e =>
        rw [hs] at h
        simp at h

end MixedPickles

namespace MixedPickles

/-- Counterexample for C3: applying a layer with threshold 50 and disable
list `["short", "nonexistent"]` to the default configuration fails with
`InvalidValidation "nonexistent"`, yet the threshold and the earlier disable
from the same layer remain applied — the configuration is *not* left
unchanged by the failing layer. -/
theorem apply_file_config_partial_state_counterexample :
    (apply_file_config ValidationConfig.default
        { threshold := some 50, disable := ["short", "nonexistent"] }).2 =
      some (ConfigError.InvalidValidation "nonexistent") ∧
    (apply_file_config ValidationConfig.default
        { threshold := some 50, disable := ["short", "nonexistent"] }).1.threshold
      = 50 ∧
    (apply_file_config ValidationConfig.default
        { threshold := some 50, disable := ["short", "nonexistent"] }).1.check_short
      = false := by
  exact ⟨by decide, by decide, by decide⟩

/-- C3 as amended: `apply_file_config` fails with a named error carrying the
offending token (`InvalidValidation` for an unknown rule name,
`InvalidSeverity` for an unknown severity string), but the mutations already
performed on the configuration by the same layer persist past the error: a
threshold set by the layer is applied even if a later entry fails, and a
disable processed before the failing entry stays cleared. -/
theorem apply_file_config_error_semantics :
    (∀ (c : ValidationConfig) (n : String) (e : ConfigError),
        disable_validation c n = .error e → e = .InvalidValidation n) ∧
    (∀ (c : ValidationConfig) (v : Validation) (s : String) (e : ConfigError),
        set_severity_from_str c v s = .error e → e = .InvalidSeverity s) ∧
    (∀ (c : ValidationConfig) (t : ToolConfig) (th : Nat),
        t.threshold = some th → (apply_file_config c t).1.threshold = th) ∧
    (∀ (c : ValidationConfig) (n : String) (ns : List String) (v : Validation),
        resolves (normalizeName n) v = true →
        enabled (apply_disables c (n :: ns)).1 v = false) := by
  refine ⟨fun c n e h => disable_validation_err h,
    fun c v s e h => set_severity_from_str_err h, ?_, ?_⟩
  · intro c t th hth
    unfold apply_file_config
    rw [hth]
    dsimp only
    cases hd : apply_disables { c with threshold := th } t.disable with
    | mk c2 e' =>
      have hth2 : c2.threshold = th := by
        have hpres :=
          (apply_disables_fields t.disable { c with threshold := th }).1
        rw [hd] at hpres
        exact hpres
      cases e' with
      | some e => simpa using hth2
      | none =>
        cases hsev : t.severity with
        | none => simpa using hth2
        | some sc =>
          have hsf := (sev_fold_fields (sevMappings sc) c2).1
          simpa [apply_severity_config] using hsf.trans hth2
  · intro c n ns v hres
    obtain ⟨c', hok, hen⟩ := disable_validation_resolved (c := c) hres
    simp only [apply_disables]
    rw [hok]
    exact apply_disables_keeps_disabled ns c' v hen

/-- Witness for C3 (amended): on the counterexample layer the threshold 50 is
still applied in the returned configuration. -/
theorem apply_file_config_error_semantics_witness :
    (apply_file_config ValidationConfig.default
        { threshold := some 50, disable := ["short", "nonexistent"] }).1.threshold
      = 50 :=
  apply_file_config_error_semantics.2.2.1 ValidationConfig.default
    { threshold := some 50, disable := ["short", "nonexistent"] } 50 rfl

/-- C10: `disable_validation` resolves names after lowercasing and deleting
every hyphen: any string normalizing to a canonical name or alias resolves
and clears the corresponding enabled flag (so `"short-commit"`,
`"WIP-Commit"` and even `"s-h-o-r-t"` resolve), and any other string yields
`InvalidValidation` carrying the original string. -/
theorem disable_name_normalization :
    (∀ (c : ValidationConfig) (n : String) (v : Validation),
        resolves (normalizeName n) v = true →
        ∃ c', disable_validation c n = .ok c' ∧ enabled c' v = false) ∧
    (∀ (c : ValidationConfig) (n : String),
        (∀ v, resolves (normalizeName n) v = false) →
        disable_validation c n = .error (.InvalidValidation n)) ∧
    normalizeName "short-commit" = "shortcommit" ∧
    normalizeName "WIP-Commit" = "wipcommit" ∧
    normalizeName "s-h-o-r-t" = "short" := by
  refine ⟨fun c n v h => disable_validation_resolved h, ?_, by decide,
    by decide, by decide⟩
  intro c n hall
  have h1 := hall .ShortCommit
  have h2 := hall .MissingReference
  have h3 := hall .InvalidFormat
  have h4 := hall .VagueLanguage
  have h5 := hall .WipCommit
  have h6 := hall .NonImperative
  simp only [resolves] at h1 h2 h3 h4 h5 h6
  simp [disable_validation, h1, h2, h3, h4, h5, h6]

/-- Witness for C10: `"s-h-o-r-t"` resolves on the default configuration and
clears `check_short`. -/
theorem disable_name_normalization_witness :
    (disable_validation ValidationConfig.default "s-h-o-r-t").toOption.map
      (fun cc => enabled cc Validation.ShortCommit) = some false := by
  obtain ⟨c', hc, he⟩ := disable_name_normalization.1
    ValidationConfig.default "s-h-o-r-t" .ShortCommit (by decide)
  rw [hc]
  simp [Except.toOption, he]

end MixedPickles

namespace MixedPickles

lemma apply_severity_config_get (sc : SeverityConfig)
    (cB c2 : ValidationConfig) (h : apply_severity_config cB sc = (c2, none))
    (v : Validation) :
    (scFieldOf sc v = none → get_severity c2 v = get_severity cB v) ∧
    (∀ s sev, scFieldOf sc v = some s → Severity.from_str s = .ok sev →
      get_severity c2 v = sev) := by
  cases v with
  | ShortCommit =>
    constructor
    · intro hnone
      refine sev_fold_get_preserve (sevMappings sc) cB c2 _ h ?_
      intro p hp hpv
      simp only [sevMappings, List.mem_cons, List.not_mem_nil, or_false] at hp
      rcases hp with rfl | rfl | rfl | rfl | rfl | rfl
      · exact hnone
      all_goals exact absurd hpv (by simp)
    · intro s sev hsome hparse
      have hs : sc.short = some s := hsome
      have h' : sev_fold cB ([] ++ (some s, Validation.ShortCommit) ::
          [(sc.wip, .WipCommit), (sc.reference, .MissingReference),
           (sc.format, .InvalidFormat), (sc.vague, .VagueLanguage),
           (sc.imperative, .NonImperative)]) = (c2, none) := by
        simpa [apply_severity_config, sevMappings, hs] using h
      obtain ⟨sev', hp', hg⟩ := sev_fold_get_set [] s _ cB c2 _ h' (by
        intro p hp
        simp only [List.mem_cons, List.not_mem_nil, or_false] at hp
        rcases hp with rfl | rfl | rfl | rfl | rfl <;> simp)
      injection hp'.symm.trans hparse with heq
      rw [hg, heq]
  | WipCommit =>
    constructor
    · intro hnone
      refine sev_fold_get_preserve (sevMappings sc) cB c2 _ h ?_
      intro p hp hpv
      simp only [sevMappings, List.mem_cons, List.not_mem_nil, or_false] at hp
      rcases hp with rfl | rfl | rfl | rfl | rfl | rfl
      · exact absurd hpv (by simp)
      · exact hnone
      all_goals exact absurd hpv (by simp)
    · intro s sev hsome hparse
      have hs : sc.wip = some s := hsome
      have h' : sev_fold cB ([(sc.short, Validation.ShortCommit)] ++
          (some s, Validation.WipCommit) ::
          [(sc.reference, .MissingReference), (sc.format, .InvalidFormat),
           (sc.vague, .VagueLanguage), (sc.imperative, .NonImperative)]) =
          (c2, none) := by
        simpa [apply_severity_config, sevMappings, hs] using h
      obtain ⟨sev', hp', hg⟩ := sev_fold_get_set _ s _ cB c2 _ h' (by
        intro p hp
        simp only [List.mem_cons, List.not_mem_nil, or_false] at hp
        rcases hp with rfl | rfl | rfl | rfl <;> simp)
      injection hp'.symm.trans hparse with heq
      rw [hg, heq]
  | MissingReference =>
    constructor
    · intro hnone
      refine sev_fold_get_preserve (sevMappings sc) cB c2 _ h ?_
      intro p hp hpv
      simp only [sevMappings, List.mem_cons, List.not_mem_nil, or_false] at hp
      rcases hp with rfl | rfl | rfl | rfl | rfl | rfl
      · exact absurd hpv (by simp)
      · exact absurd hpv (by simp)
      · exact hnone
      all_goals exact absurd hpv (by simp)
    · intro s sev hsome hparse
      have hs : sc.reference = some s := hsome
      have h' : sev_fold cB ([(sc.short, Validation.ShortCommit),
          (sc.wip, Validation.WipCommit)] ++
          (some s, Validation.MissingReference) ::
          [(sc.format, .InvalidFormat), (sc.vague, .VagueLanguage),
           (sc.imperative, .NonImperative)]) = (c2, none) := by
        simpa [apply_severity_config, sevMappings, hs] using h
      obtain ⟨sev', hp', hg⟩ := sev_fold_get_set _ s _ cB c2 _ h' (by
        intro p hp
        simp only [List.mem_cons, List.not_mem_nil, or_false] at hp
        rcases hp with rfl | rfl | rfl <;> simp)
      injection hp'.symm.trans hparse with heq
      rw [hg, heq]
  | InvalidFormat =>
    constructor
    · intro hnone
      refine sev_fold_get_preserve (sevMappings sc) cB c2 _ h ?_
      intro p hp hpv
      simp only [sevMappings, List.mem_cons, List.not_mem_nil, or_false] at hp
      rcases hp with rfl | rfl | rfl | rfl | rfl | rfl
      · exact absurd hpv (by simp)
      · exact absurd hpv (by simp)
      · exact absurd hpv (by simp)
      · exact hnone
      all_goals exact absurd hpv (by simp)
    · intro s sev hsome hparse
      have hs : sc.format = some s := hsome
      have h' : sev_fold cB ([(sc.short, Validation.ShortCommit),
          (sc.wip, Validation.WipCommit),
          (sc.reference, Validation.MissingReference)] ++
          (some s, Validation.InvalidFormat) ::
          [(sc.vague, .VagueLanguage), (sc.imperative, .NonImperative)]) =
          (c2, none) := by
        simpa [apply_severity_config, sevMappings, hs] using h
      obtain ⟨sev', hp', hg⟩ := sev_fold_get_set _ s _ cB c2 _ h' (by
        intro p hp
        simp only [List.mem_cons, List.not_mem_nil, or_false] at hp
        rcases hp with rfl | rfl <;> simp)
      injection hp'.symm.trans hparse with heq
      rw [hg, heq]
  | VagueLanguage =>
    constructor
    · intro hnone
      refine sev_fold_get_preserve (sevMappings sc) cB c2 _ h ?_
      intro p hp hpv
      simp only [sevMappings, List.mem_cons, List.not_mem_nil, or_false] at hp
      rcases hp with rfl | rfl | rfl | rfl | rfl | rfl
      · exact absurd hpv (by simp)
      · exact absurd hpv (by simp)
      · exact absurd hpv (by simp)
      · exact absurd hpv (by simp)
      · exact hnone
      · exact absurd hpv (by simp)
    · intro s sev hsome hparse
      have hs : sc.vague = some s := hsome
      have h' : sev_fold cB ([(sc.short, Validation.ShortCommit),
          (sc.wip, Validation.WipCommit),
          (sc.reference, Validation.MissingReference),
          (sc.format, Validation.InvalidFormat)] ++
          (some s, Validation.VagueLanguage) ::
          [(sc.imperative, .NonImperative)]) = (c2, none) := by
        simpa [apply_severity_config, sevMappings, hs] using h
      obtain ⟨sev', hp', hg⟩ := sev_fold_get_set _ s _ cB c2 _ h' (by
        intro p hp
        simp only [List.mem_cons, List.not_mem_nil, or_false] at hp
        rcases hp with rfl <;> simp)
      injection hp'.symm.trans hparse with heq
      rw [hg, heq]
  | NonImperative =>
    constructor
    · intro hnone
      refine sev_fold_get_preserve (sevMappings sc) cB c2 _ h ?_
      intro p hp hpv
      simp only [sevMappings, List.mem_cons, List.not_mem_nil, or_false] at hp
      rcases hp with rfl | rfl | rfl | rfl | rfl | rfl
      · exact absurd hpv (by simp)
      · exact absurd hpv (by simp)
      · exact absurd hpv (by simp)
      · exact absurd hpv (by simp)
      · exact absurd hpv (by simp)
      · exact hnone
    · intro s sev hsome hparse
      have hs : sc.imperative = some s := hsome
      have h' : sev_fold cB ([(sc.short, Validation.ShortCommit),
          (sc.wip, Validation.WipCommit),
          (sc.reference, Validation.MissingReference),
          (sc.format, Validation.InvalidFormat),
          (sc.vague, Validation.VagueLanguage)] ++
          (some s, Validation.NonImperative) :: []) = (c2, none) := by
        simpa [apply_severity_config, sevMappings, hs] using h
      obtain ⟨sev', hp', hg⟩ := sev_fold_get_set _ s _ cB c2 _ h' (by
        intro p hp
        simp only [List.not_mem_nil] at hp)
      injection hp'.symm.trans hparse with heq
      rw [hg, heq]

end MixedPickles

namespace MixedPickles

/-- C7: for two configuration layers applied in order, any field set in the
later layer ends up equal to the later layer's value regardless of what the
earlier layer set, and any field unset in the later layer keeps the value
established by the earlier layers — per field: the threshold, each kind's
severity override, and each kind's enabled flag (a disable entry of the later
layer forces the flag to `false`; no matching entry keeps the earlier
flag). -/
theorem config_layering_later_wins (c : ValidationConfig) (l1 l2 : ToolConfig)
    (h1 : (apply_file_config c l1).2 = none)
    (h2 : (apply_file_config (apply_file_config c l1).1 l2).2 = none) :
    (∀ th, l2.threshold = some th →
        (apply_file_config (apply_file_config c l1).1 l2).1.threshold = th) ∧
    (l2.threshold = none →
        (apply_file_config (apply_file_config c l1).1 l2).1.threshold =
          (apply_file_config c l1).1.threshold) ∧
    (∀ (v : Validation) (s : String) (sev : Severity),
        sevFieldOf l2 v = some s → Severity.from_str s = .ok sev →
        get_severity (apply_file_config (apply_file_config c l1).1 l2).1 v =
          sev) ∧
    (∀ v : Validation, sevFieldOf l2 v = none →
        get_severity (apply_file_config (apply_file_config c l1).1 l2).1 v =
          get_severity (apply_file_config c l1).1 v) ∧
    (∀ (v : Validation) (n : String), n ∈ l2.disable →
        resolves (normalizeName n) v = true →
        enabled (apply_file_config (apply_file_config c l1).1 l2).1 v =
          false) ∧
    (∀ v : Validation,
        (∀ n ∈ l2.disable, resolves (normalizeName n) v = false) →
        enabled (apply_file_config (apply_file_config c l1).1 l2).1 v =
          enabled (apply_file_config c l1).1 v) := by
  clear h1
  generalize (apply_file_config c l1).1 = c1 at h2 ⊢
  unfold apply_file_config at h2 ⊢
  dsimp only at h2 ⊢
  set cA := (match l2.threshold with
    | some th => { c1 with threshold := th }
    | none => c1) with hcA
  have hA1 : ∀ th, l2.threshold = some th → cA.threshold = th := by
    intro th hth
    rw [hcA, hth]
  have hA0 : l2.threshold = none → cA = c1 := by
    intro hth
    rw [hcA, hth]
  have hAsev : cA.severities = c1.severities := by
    rw [hcA]; cases l2.threshold <;> rfl
  have hAget : ∀ v, get_severity cA v = get_severity c1 v := by
    intro v; unfold get_severity; rw [hAsev]
  have hAen : ∀ v, enabled cA v = enabled c1 v := by
    intro v; rw [hcA]; cases l2.threshold <;> cases v <;> rfl
  cases hpr : apply_disables cA l2.disable with
  | mk cB eB =>
    rw [hpr] at h2
    have hBf := apply_disables_fields l2.disable cA
    rw [hpr] at hBf
    obtain ⟨hBth, hBsev⟩ := hBf
    have hBget : ∀ v, get_severity cB v = get_severity cA v := by
      intro v; unfold get_severity; rw [hBsev]
    cases eB with
    | some e => simp at h2
    | none =>
      have hBen := apply_disables_enabled_ok l2.disable cA cB hpr
      cases hsv : l2.severity with
      | none =>
        dsimp only
        refine ⟨?_, ?_, ?_, ?_, ?_, ?_⟩
        · intro th hth
          exact hBth.trans (hA1 th hth)
        · intro hth
          rw [hBth, hA0 hth]
        · intro v s sev hsome _
          unfold sevFieldOf at hsome
          rw [hsv] at hsome
          simp at hsome
        · intro v _
          exact (hBget v).trans (hAget v)
        · intro v n hn hres
          rw [hBen v, List.any_eq_true.mpr ⟨n, hn, hres⟩]
          simp
        · intro v hnone
          have hany : (l2.disable.any
              (fun n => resolves (normalizeName n) v)) = false := by
            rw [List.any_eq_false]
            intro n hn
            simp [hnone n hn]
          rw [hBen v, hany]
          simpa using hAen v
      | some sc =>
        rw [hsv] at h2
        dsimp only at h2 ⊢
        cases hfold : apply_severity_config cB sc with
        | mk c2 e2 =>
          rw [hfold] at h2
          cases e2 with
          | some e => simp at h2
          | none =>
            dsimp only
            have hget := apply_severity_config_get sc cB c2 hfold
            have hfold' : sev_fold cB (sevMappings sc) = (c2, none) := hfold
            have hSf := sev_fold_fields (sevMappings sc) cB
            rw [hfold'] at hSf
            obtain ⟨hSth, hSen⟩ := hSf
            refine ⟨?_, ?_, ?_, ?_, ?_, ?_⟩
            · intro th hth
              exact hSth.trans (hBth.trans (hA1 th hth))
            · intro hth
              rw [hSth, hBth, hA0 hth]
            · intro v s sev hsome hparse
              unfold sevFieldOf at hsome
              rw [hsv] at hsome
              exact (hget v).2 s sev hsome hparse
            · intro v hnone
              unfold sevFieldOf at hnone
              rw [hsv] at hnone
              exact ((hget v).1 hnone).trans ((hBget v).trans (hAget v))
            · intro v n hn hres
              rw [hSen v, hBen v, List.any_eq_true.mpr ⟨n, hn, hres⟩]
              simp
            · intro v hnone
              have hany : (l2.disable.any
                  (fun n => resolves (normalizeName n) v)) = false := by
                rw [List.any_eq_false]
                intro n hn
                simp [hnone n hn]
              rw [hSen v, hBen v, hany]
              simpa using hAen v

end MixedPickles

namespace MixedPickles

/-- Witness for C7: concrete layers where the override layer rewrites the
threshold and the `ShortCommit` severity set by the file layer. -/
theorem config_layering_later_wins_witness :
    (apply_file_config
      (apply_file_config ValidationConfig.default
        { threshold := some 40, disable := ["vague"],
          severity := some { short := some "error" } }).1
      { threshold := some 50,
        severity := some { short := some "info" } }).1.threshold = 50 ∧
    get_severity (apply_file_config
      (apply_file_config ValidationConfig.default
        { threshold := some 40, disable := ["vague"],
          severity := some { short := some "error" } }).1
      { threshold := some 50,
        severity := some { short := some "info" } }).1 .ShortCommit =
      .Info :=
  ⟨(config_layering_later_wins ValidationConfig.default
      { threshold := some 40, disable := ["vague"],
        severity := some { short := some "error" } }
      { threshold := some 50, severity := some { short := some "info" } }
      (by decide) (by decide)).1 50 rfl,
   (config_layering_later_wins ValidationConfig.default
      { threshold := some 40, disable := ["vague"],
        severity := some { short := some "error" } }
      { threshold := some 50, severity := some { short := some "info" } }
      (by decide) (by decide)).2.2.1 .ShortCommit "info" .Info rfl rfl⟩

lemma validate_commit_sources {commit : Commit} {cfg : ValidationConfig}
    {f : Finding} (hf : f ∈ validate_commit commit cfg) :
    check_wip commit.subject cfg = some f ∨
    check_short commit.subject cfg = some f ∨
    check_vague commit.subject cfg = some f ∨
    check_issue_reference commit.subject cfg = some f ∨
    check_conventional_format commit.subject cfg = some f ∨
    check_imperative commit.subject cfg = some f := by
  unfold validate_commit at hf
  cases hw : (cfg.check_wip && is_wip_commit commit.subject) with
  | true =>
    simp [hw] at hf
    tauto
  | false =>
    simp [hw] at hf
    tauto

/-- C9: the `ShortCommit` predicate and the `is_short` suppression flag
compare the UTF-8 byte length of the subject against the threshold, not the
character count: more than `threshold` bytes never yields `ShortCommit`
(whatever the character count), at most `threshold` bytes always does for a
non-WIP subject with the check enabled and not ignored, and a concrete
16-character / 32-byte subject is *not* short under the default threshold 30
while its 15-character / 30-byte prefix is. -/
theorem short_check_uses_byte_length :
    (∀ (commit : Commit) (cfg : ValidationConfig),
        cfg.threshold < utf8Len commit.subject →
        ∀ f ∈ validate_commit commit cfg,
          f.validation ≠ Validation.ShortCommit) ∧
    (∀ (commit : Commit) (cfg : ValidationConfig),
        is_wip_commit commit.subject = false →
        utf8Len commit.subject ≤ cfg.threshold →
        cfg.check_short = true →
        get_severity cfg .ShortCommit ≠ .Ignore →
        ∃ f ∈ validate_commit commit cfg,
          f.validation = Validation.ShortCommit) ∧
    (("ääääääääääääääää" : String).length = 16 ∧
      utf8Len "ääääääääääääääää" = 32 ∧
      ∀ f ∈ validate_commit (mkCommit "ääääääääääääääää")
          ValidationConfig.default, f.validation ≠ Validation.ShortCommit) ∧
    (("äääääääääääääää" : String).length = 15 ∧
      utf8Len "äääääääääääääää" = 30 ∧
      ∃ f ∈ validate_commit (mkCommit "äääääääääääääää")
          ValidationConfig.default,
        f.validation = Validation.ShortCommit) := by
  refine ⟨?_, ?_, ⟨by decide, by decide, by decide⟩,
    ⟨by decide, by decide, by decide⟩⟩
  · intro commit cfg hlt f hf
    have hs : check_short commit.subject cfg = none := by
      simp only [check_short]
      split
      · rfl
      · rw [if_neg (by omega)]
    rcases validate_commit_sources hf with h | h | h | h | h | h
    · rw [check_wip_kind h]; decide
    · rw [hs] at h; simp at h
    · rw [check_vague_kind h]; decide
    · rw [check_issue_reference_kind h]; decide
    · rw [check_conventional_format_kind h]; decide
    · rw [check_imperative_kind h]; decide
  · intro commit cfg hwip hlen hcs hsev
    have hf : check_short commit.subject cfg =
        some ⟨.ShortCommit, get_severity cfg .ShortCommit⟩ := by
      simp [check_short, hcs, hlen, hsev]
    have hw : (cfg.check_wip && is_wip_commit commit.subject) = false := by
      rw [hwip]; simp
    refine ⟨⟨.ShortCommit, get_severity cfg .ShortCommit⟩, ?_, rfl⟩
    simp [validate_commit, hw, hf]

/-- Witness for C9: the 32-byte, 16-character subject gets no `ShortCommit`
finding under the default threshold 30. -/
theorem short_check_uses_byte_length_witness :
    (⟨Validation.ShortCommit, Severity.Warning⟩ : Finding) ∉
      validate_commit (mkCommit "ääääääääääääääää") ValidationConfig.default :=
  fun hmem =>
    short_check_uses_byte_length.1 (mkCommit "ääääääääääääääää")
      ValidationConfig.default (by decide) _ hmem rfl

end MixedPickles
